import Mathlib

/-!
Verification of the Whisprly hotkey-recognition and session-lifecycle core.

The definitions below are a shallow embedding of the Python source:
  * `parse_hotkey`            — `parse_hotkey` in `src/client/app.py` / `src/main.py`
  * `normalize_key`           — `HotkeyManager._normalize_key` in `src/main.py`,
                                duplicated inline in `HotkeyManager._on_press` of
                                `src/client/app.py`
  * `HotkeyManager.on_press`  — `HotkeyManager._on_press` in `src/client/app.py`
  * `HotkeyManager.on_release`— `HotkeyManager._on_release` in `src/client/app.py`
  * `HotkeyManager.register`  — `HotkeyManager.register` in `src/client/app.py`
  * `toggle_recording`        — the `toggle_recording` closure in `main()` of
                                `src/client/app.py` / `src/main.py`
  * `process_audio`           — `process_audio` in `src/client/app.py`
Machine-level Python sets are modelled as duplicate-free lists with
membership-based insertion; wall-clock time is modelled as `ℚ` (seconds).
-/

namespace Whisprly

/-- Abstract key identity: either a member of the platform's named-key table
(`pynput.keyboard.Key`, e.g. `Key.ctrl_l`) or a literal character key
(`pynput.keyboard.KeyCode.from_char`). -/
inductive Key where
  | named : String → Key
  | char : Char → Key
deriving DecidableEq

/-- Modelled from the spec: the platform's named-key table (the member names of
`pynput.keyboard.Key`, an external collaborator not part of this repository);
`getattr(keyboard.Key, part)` succeeds exactly for these names. -/
def keyTable : List String :=
  ["alt", "alt_l", "alt_r", "alt_gr", "backspace", "caps_lock",
   "cmd", "cmd_l", "cmd_r", "ctrl", "ctrl_l", "ctrl_r",
   "delete", "down", "end", "enter", "esc",
   "f1", "f2", "f3", "f4", "f5", "f6", "f7", "f8", "f9", "f10",
   "f11", "f12", "f13", "f14", "f15", "f16", "f17", "f18", "f19", "f20",
   "home", "left", "media_next", "media_play_pause", "media_previous",
   "media_volume_down", "media_volume_mute", "media_volume_up", "menu",
   "page_down", "page_up", "right", "shift", "shift_l", "shift_r",
   "space", "tab", "up"]

/-- Python `name.endswith('_r')` on the character list of a key name. -/
def endsWith_r (s : List Char) : Bool :=
  match s.reverse with
  | 'r' :: '_' :: _ => true
  | _ => false

/-- Python `name.replace('_r', '_l')`: left-to-right, non-overlapping
replacement of every occurrence of the substring `"_r"` by `"_l"`. -/
def replace_r_l : List Char → List Char
  | [] => []
  | '_' :: 'r' :: rest => '_' :: 'l' :: replace_r_l rest
  | c :: rest => c :: replace_r_l rest

/-- `HotkeyManager._normalize_key` (src/main.py lines 287-296), identical to the
inline normalization in `_on_press` of src/client/app.py lines 229-237:
a named key whose name ends in `_r` is replaced by the key named
`name.replace('_r','_l')` when that name exists in the key table
(`getattr` succeeds), otherwise the key passes through unchanged; character
keys (`KeyCode`, no `name` attribute) pass through unchanged. -/
def normalize_key (k : Key) : Key :=
  match k with
  | Key.char c => Key.char c
  | Key.named n =>
    if endsWith_r n.data then
      if (replace_r_l n.data).asString ∈ keyTable then
        Key.named (replace_r_l n.data).asString
      else Key.named n
    else Key.named n

/-- Whitespace for Python `str.split()` with no argument (ASCII part). -/
def pySpace (c : Char) : Bool :=
  c = ' ' ∨ c = '\t' ∨ c = '\n' ∨ c = '\r' ∨ c = '\x0b' ∨ c = '\x0c'

/-- Helper of `splitWs`: accumulates the current (reversed) token. -/
def splitWsAux : List Char → List Char → List (List Char)
  | [], acc => if acc = [] then [] else [acc.reverse]
  | c :: rest, acc =>
    if pySpace c then
      if acc = [] then splitWsAux rest []
      else acc.reverse :: splitWsAux rest []
    else splitWsAux rest (c :: acc)

/-- Python `str.split()` with no argument: split on runs of whitespace,
discarding empty tokens. -/
def splitWs (s : List Char) : List (List Char) := splitWsAux s []

/-- The tokenization step of `parse_hotkey`:
`hotkey_str.lower().replace("+", " ").split()`. -/
def tokenize (s : String) : List String :=
  (splitWs ((s.data.map Char.toLower).map (fun c => if c = '+' then ' ' else c))).map
    List.asString

/-- The literal `key_map` dictionary of `parse_hotkey`
(src/client/app.py lines 161-169). -/
def key_map : List (String × Key) :=
  [("<ctrl>", Key.named "ctrl_l"), ("<shift>", Key.named "shift_l"),
   ("<alt>", Key.named "alt_l"), ("<cmd>", Key.named "cmd"),
   ("cmd_r", Key.named "cmd_r"), ("space", Key.named "space"),
   ("<space>", Key.named "space")]

/-- Dictionary lookup `part in key_map` / `key_map[part]`. -/
def lookupKeyMap (t : String) : Option Key :=
  (key_map.find? (fun p => p.1 = t)).map (fun p => p.2)

/-- Python `set.add`: insert preserving set semantics (order of first
insertion is kept so the result is a duplicate-free list). -/
def insertKey (k : Key) (l : List Key) : List Key :=
  if k ∈ l then l else l ++ [k]

/-- The token loop of `parse_hotkey` (src/client/app.py lines 172-183):
the first component accumulates the key set (`keys`), the second the
unrecognized tokens that were skipped with a printed warning. -/
def parseLoop : List String → List Key → List String → List Key × List String
  | [], keys, warns => (keys, warns)
  | part :: rest, keys, warns =>
    match lookupKeyMap part with
    | some k => parseLoop rest (insertKey k keys) warns
    | none =>
      match part.data with
      | [c] => parseLoop rest (insertKey (Key.char c) keys) warns
      | _ =>
        if part ∈ keyTable then parseLoop rest (insertKey (Key.named part) keys) warns
        else parseLoop rest keys (warns ++ [part])

/-- `parse_hotkey` (src/client/app.py lines 160-183, src/main.py lines 231-256):
returns the parsed key set together with the list of skipped
(warned-about) tokens. -/
def parse_hotkey (s : String) : List Key × List String :=
  parseLoop (tokenize s) [] []

/-- Resolution of one single token, written to mirror the claim's cascade:
symbolic alias from `key_map`, else single character, else named-key table
lookup; `none` for an unresolvable token. -/
def resolveToken (t : String) : Option Key :=
  match lookupKeyMap t with
  | some k => some k
  | none =>
    match t.data with
    | [c] => some (Key.char c)
    | _ => if t ∈ keyTable then some (Key.named t) else none

/-! The gesture recognizer (`HotkeyManager` of src/client/app.py). -/

/-- A key press or key release event, as delivered by the platform listener. -/
inductive KEvent where
  | press : Key → KEvent
  | release : Key → KEvent
deriving DecidableEq

/-- A callback invocation observed at the recognizer's boundary: a tap
callback is identified by its registered key, a combo callback by its
registered key set. -/
inductive Fired where
  | tap : Key → Fired
  | combo : List Key → Fired
deriving DecidableEq

/-- The mutable state of `HotkeyManager` (src/client/app.py lines 190-195)
together with its registration tables: `_pressed_keys` (raw keys, set
semantics), `_other_key_pressed`, the keys of `_tap_callbacks` and the key
sets of `_callbacks`. -/
structure HotkeyManager where
  pressedKeys : List Key
  otherKeyPressed : Bool
  tapKeys : List Key
  combos : List (List Key)
deriving DecidableEq

/-- Image of a pressed-key set under normalization: the `normalized` set
built by `_on_press` (src/client/app.py lines 229-237). -/
def normSet (l : List Key) : List Key := l.map normalize_key

/-- Python `combo.issubset(frozen)` on list-encoded sets. -/
def subsetB (c l : List Key) : Bool := c.all (fun m => decide (m ∈ l))

/-- `HotkeyManager._on_press` (src/client/app.py lines 220-242): add the raw
key to the pressed set; if it is not a tap candidate, set
`_other_key_pressed`; then fire every registered combo whose key set is a
subset of the normalized pressed set. -/
def HotkeyManager.on_press (hm : HotkeyManager) (k : Key) : HotkeyManager × List Fired :=
  let pressed := insertKey k hm.pressedKeys
  let other := if k ∈ hm.tapKeys then hm.otherKeyPressed else true
  let frozen := normSet pressed
  let fired := (hm.combos.filter (fun c => subsetB c frozen)).map Fired.combo
  (⟨pressed, other, hm.tapKeys, hm.combos⟩, fired)

/-- `HotkeyManager._on_release` (src/client/app.py lines 244-253): fire the
tap callback of the raw released key if it is a tap candidate and
`_other_key_pressed` is unset; then remove the key and reset the flag when
no key remains pressed. -/
def HotkeyManager.on_release (hm : HotkeyManager) (k : Key) : HotkeyManager × List Fired :=
  let fired := if k ∈ hm.tapKeys ∧ hm.otherKeyPressed = false then [Fired.tap k] else []
  let pressed := hm.pressedKeys.erase k
  let other := if pressed = [] then false else hm.otherKeyPressed
  (⟨pressed, other, hm.tapKeys, hm.combos⟩, fired)

/-- Dispatch one key event to the listener callbacks. -/
def hmStep (hm : HotkeyManager) : KEvent → HotkeyManager × List Fired
  | KEvent.press k => hm.on_press k
  | KEvent.release k => hm.on_release k

/-- Run the recognizer over a finite event sequence, accumulating every
callback invocation in order. -/
def runEvents (hm : HotkeyManager) : List KEvent → HotkeyManager × List Fired
  | [] => (hm, [])
  | e :: rest =>
    let r := hmStep hm e
    let r2 := runEvents r.1 rest
    (r2.1, r.2 ++ r2.2)

/-- A freshly started `HotkeyManager` holding the given registrations. -/
def mkHM (taps : List Key) (combos : List (List Key)) : HotkeyManager :=
  ⟨[], false, taps, combos⟩

/-- `HotkeyManager.register` (src/client/app.py lines 197-206): parse the
spec; a one-key result registers a tap callback, any other size (including
zero) registers a combo keyed by the parsed set. -/
def HotkeyManager.register (hm : HotkeyManager) (spec : String) : HotkeyManager :=
  match (parse_hotkey spec).1 with
  | [k] => ⟨hm.pressedKeys, hm.otherKeyPressed, insertKey k hm.tapKeys, hm.combos⟩
  | ks => ⟨hm.pressedKeys, hm.otherKeyPressed, hm.tapKeys, hm.combos ++ [ks]⟩

/-- The tap callback for `k` is invoked by the release of `k` arriving after
the event sequence `es` has been processed from a fresh recognizer. -/
def firesTapOnRelease (taps : List Key) (combos : List (List Key))
    (es : List KEvent) (k : Key) : Prop :=
  Fired.tap k ∈ ((runEvents (mkHM taps combos) es).1.on_release k).2

instance (taps : List Key) (combos : List (List Key)) (es : List KEvent) (k : Key) :
    Decidable (firesTapOnRelease taps combos es k) := by
  unfold firesTapOnRelease; infer_instance

/-! The session state machine and worker (src/client/app.py). -/

/-- The three `AppState` status values (src/client/app.py lines 26-29). -/
inductive Status where
  | idle
  | recording
  | processing
deriving DecidableEq

/-- The state read and written by the `toggle_recording` closure
(src/client/app.py lines 349-382): the debounce timestamp
`last_toggle_time["t"]` (seconds, as `ℚ`), the session status
`state.status`, and the recorder flag `recorder.is_recording`. -/
structure ClientState where
  lastToggleTime : ℚ
  status : Status
  isRecording : Bool
deriving DecidableEq

/-- The observable outcome of one `toggle_recording` invocation: the state
left behind, whether a `process_audio` worker thread was spawned, and the
notifications emitted. -/
structure ToggleResult where
  state : ClientState
  workerSpawned : Bool
  notifications : List String
deriving DecidableEq

/-- The `toggle_recording` closure (src/client/app.py lines 352-382,
src/main.py lines 370-404). `now` is the value of `time.time()`;
`stopPayloadLen` is the byte length of what `recorder.stop()` returns in
the stop branch. -/
def toggle_recording (now : ℚ) (stopPayloadLen : ℕ) (s : ClientState) : ToggleResult :=
  if now - s.lastToggleTime < 1/2 then
    ⟨s, false, []⟩
  else
    let s1 : ClientState := ⟨now, s.status, s.isRecording⟩
    if s.status = Status.processing then
      ⟨s1, false, []⟩
    else if s.isRecording = false then
      ⟨⟨now, Status.recording, true⟩, false,
        ["Recording started... Press again to stop."]⟩
    else
      -- audio_data = recorder.stop(); recorder is no longer recording
      if stopPayloadLen < 1000 then
        ⟨⟨now, Status.idle, false⟩, false, ["Recording too short, ignored."]⟩
      else
        ⟨⟨now, s.status, false⟩, true, []⟩

/-- Classification of what the `requests.post` call and the response
handling inside `process_audio` do (src/client/app.py lines 121-152): a
response with a status code, or one of the exception classes the `except`
clauses distinguish. -/
inductive HttpOutcome where
  | response : ℕ → String → String → String → HttpOutcome
  | connError : HttpOutcome
  | timeoutError : HttpOutcome
  | otherExc : String → HttpOutcome
deriving DecidableEq

/-- Exceptions propagating out of the `try` body of `process_audio`. -/
inductive PyExc where
  | connectionError
  | timeoutError
  | other : String → PyExc
deriving DecidableEq

/-- The notification-preview truncation of `process_audio`:
`clean_text[:100] + ("..." if len(clean_text) > 100 else "")`. -/
def preview (t : String) : String :=
  (t.data.take 100).asString ++ (if 100 < t.data.length then "..." else "")

/-- The `try` body of `process_audio` after the initial status write
(src/client/app.py lines 120-144): returns the notifications it emits and
the text delivered by `auto_paste`, or raises. -/
def processAudioBody (o : HttpOutcome) : Except PyExc (List String × Option String) :=
  match o with
  | HttpOutcome.response code detail _ cleanText =>
    if code ≠ 200 then Except.ok (["Server error: " ++ detail], none)
    else Except.ok (["Pasted!\n" ++ preview cleanText], some cleanText)
  | HttpOutcome.connError => Except.error PyExc.connectionError
  | HttpOutcome.timeoutError => Except.error PyExc.timeoutError
  | HttpOutcome.otherExc m => Except.error (PyExc.other m)

/-- The observable behaviour of one `process_audio` worker run: the sequence
of `state.set_status` writes it performs, in order, the notifications it
emits, and the text it delivers to the clipboard (if any). -/
structure WorkerRun where
  statusWrites : List Status
  notifications : List String
  delivered : Option String
deriving DecidableEq

/-- `process_audio` (src/client/app.py lines 108-155): the `try` block first
writes `PROCESSING` and notifies; the body runs; the `except` clauses turn
each exception class into its notification; the `finally` block always
writes `IDLE`. No other status write exists in the function. -/
def process_audio (o : HttpOutcome) : WorkerRun :=
  let handled : List String × Option String :=
    match processAudioBody o with
    | Except.ok r => r
    | Except.error PyExc.connectionError =>
      (["Server unreachable. Is Docker running?"], none)
    | Except.error PyExc.timeoutError =>
      (["Timeout: the server did not respond in time."], none)
    | Except.error (PyExc.other m) =>
      (["Error: " ++ (m.data.take 100).asString], none)
  { statusWrites := [Status.processing] ++ [] ++ [Status.idle],
    notifications := ["Processing..."] ++ handled.1,
    delivered := handled.2 }

/-- The session status after a worker run whose status writes are applied in
order to the status `s0` the session had when the worker started. -/
def statusAfter (s0 : Status) (w : WorkerRun) : Status :=
  w.statusWrites.foldl (fun _ x => x) s0

/-! Trace-level observables used to state properties of the recognizer. -/

/-- Effect of one event on the raw pressed-key set. -/
def pressStep (p : List Key) : KEvent → List Key
  | KEvent.press k => insertKey k p
  | KEvent.release k => p.erase k

/-- The raw pressed-key set after a finite event sequence, starting empty. -/
def pressedAfter (es : List KEvent) : List Key := es.foldl pressStep []

/-- The event trace contains a press of a key without a tap registration that
is not followed by a point at which the held-key set becomes empty: this is
exactly the condition under which `_other_key_pressed` is set at the end of
the trace. -/
def inhibited (taps : List Key) (es : List KEvent) : Prop :=
  ∃ e₁ k' e₂, es = e₁ ++ KEvent.press k' :: e₂ ∧ k' ∉ taps ∧
    ∀ p t, e₂ = p ++ t → pressedAfter (e₁ ++ KEvent.press k' :: p) ≠ []

/-- Number of invocations of the combo callback registered for key set `c`
among the observed callback invocations `fs`. -/
def countFired (c : List Key) (fs : List Fired) : ℕ :=
  fs.countP (fun f => decide (f = Fired.combo c))

/-- Number of press events in the trace after which the key set `c` is
contained in the normalized held-key set, the raw held-key set being `p`
when the trace starts. -/
def countPressSat (c : List Key) (p : List Key) : List KEvent → ℕ
  | [] => 0
  | KEvent.press k :: rest =>
    (if subsetB c (normSet (insertKey k p)) = true then 1 else 0) +
      countPressSat c (insertKey k p) rest
  | KEvent.release k :: rest => countPressSat c (p.erase k) rest

/-- Written from the claim's words (C5), for comparison with the code: the
number of press events that complete `c` as a subset of the held-key set,
i.e. presses on which `c` transitions from unsatisfied to satisfied. -/
def claimCompletingCount (c : List Key) (p : List Key) : List KEvent → ℕ
  | [] => 0
  | KEvent.press k :: rest =>
    (if subsetB c (normSet p) = false ∧ subsetB c (normSet (insertKey k p)) = true
      then 1 else 0) + claimCompletingCount c (insertKey k p) rest
  | KEvent.release k :: rest => claimCompletingCount c (p.erase k) rest

/-- Helper for `claimOtherKeyDuringHold`: `held` records whether the tap key
is currently held, `acc` whether another key has been pressed during the
current hold. -/
def claimHoldScan (k : Key) : Bool → Bool → List KEvent → Bool
  | _, acc, [] => acc
  | held, acc, KEvent.press k' :: rest =>
    if k' = k then claimHoldScan k true false rest
    else claimHoldScan k held (acc || held) rest
  | held, acc, KEvent.release k' :: rest =>
    if k' = k then claimHoldScan k false acc rest
    else claimHoldScan k held acc rest

/-- Written from the claim's words (C4), for comparison with the code:
some key other than `k` was pressed during the interval in which `k` was
held, i.e. after the (last) press of `k` in the trace. -/
def claimOtherKeyDuringHold (k : Key) (es : List KEvent) : Bool :=
  claimHoldScan k false false es

/-! Helper lemmas about the debounced toggle. -/

/-- A toggle invocation inside the debounce window returns immediately:
state, recorder and worker are all untouched. -/
theorem toggle_suppressed (now : ℚ) (len : ℕ) (s : ClientState)
    (hd : now - s.lastToggleTime < 1/2) :
    toggle_recording now len s = ⟨s, false, []⟩ := by
  unfold toggle_recording
  rw [if_pos hd]

/-- The `Processing`-ignore branch of the toggle: only the timestamp moves. -/
theorem toggle_processing_eq (now : ℚ) (len : ℕ) (s : ClientState)
    (hd : ¬(now - s.lastToggleTime < 1/2)) (hs : s.status = Status.processing) :
    toggle_recording now len s = ⟨⟨now, s.status, s.isRecording⟩, false, []⟩ := by
  unfold toggle_recording
  rw [if_neg hd, if_pos hs]

/-- The start branch of the toggle. -/
theorem toggle_start_eq (now : ℚ) (len : ℕ) (s : ClientState)
    (hd : ¬(now - s.lastToggleTime < 1/2)) (hs : ¬ s.status = Status.processing)
    (hr : s.isRecording = false) :
    toggle_recording now len s =
      ⟨⟨now, Status.recording, true⟩, false,
        ["Recording started... Press again to stop."]⟩ := by
  unfold toggle_recording
  rw [if_neg hd, if_neg hs, if_pos hr]

/-- The stop branch of the toggle with a too-short payload. -/
theorem toggle_stop_short_eq (now : ℚ) (len : ℕ) (s : ClientState)
    (hd : ¬(now - s.lastToggleTime < 1/2)) (hs : ¬ s.status = Status.processing)
    (hr : s.isRecording = true) (hlen : len < 1000) :
    toggle_recording now len s =
      ⟨⟨now, Status.idle, false⟩, false, ["Recording too short, ignored."]⟩ := by
  unfold toggle_recording
  rw [if_neg hd, if_neg hs, if_neg (by simp [hr]), if_pos hlen]

/-- The stop branch of the toggle with a viable payload: a worker spawns. -/
theorem toggle_stop_long_eq (now : ℚ) (len : ℕ) (s : ClientState)
    (hd : ¬(now - s.lastToggleTime < 1/2)) (hs : ¬ s.status = Status.processing)
    (hr : s.isRecording = true) (hlen : ¬ len < 1000) :
    toggle_recording now len s = ⟨⟨now, s.status, false⟩, true, []⟩ := by
  unfold toggle_recording
  rw [if_neg hd, if_neg hs, if_neg (by simp [hr]), if_neg hlen]

/-- Every toggle invocation that passes the debounce check stores `now` as
the new debounce timestamp, whatever branch runs afterwards. -/
theorem toggle_allowed_lastTime (now : ℚ) (len : ℕ) (s : ClientState)
    (hd : ¬(now - s.lastToggleTime < 1/2)) :
    (toggle_recording now len s).state.lastToggleTime = now := by
  simp only [toggle_recording, if_neg hd]
  split_ifs <;> rfl

/-- A toggle invocation that passes the debounce check never leaves the
whole state unchanged: some field (timestamp, status or recorder flag)
differs afterwards. -/
theorem toggle_allowed_changes (now : ℚ) (len : ℕ) (s : ClientState)
    (hd : ¬(now - s.lastToggleTime < 1/2)) :
    (toggle_recording now len s).state ≠ s := by
  have hne : now ≠ s.lastToggleTime := by
    intro h
    apply hd
    rw [h, sub_self]
    norm_num
  simp only [toggle_recording, if_neg hd]
  split_ifs with h1 h2 h3 <;> intro hc
  · exact hne (congrArg ClientState.lastToggleTime hc)
  · exact absurd (congrArg ClientState.isRecording hc) (by simp [h2])
  · exact hne (congrArg ClientState.lastToggleTime hc)
  · exact hne (congrArg ClientState.lastToggleTime hc)

/-! Claim theorems C1, C2, C3, C7, C10 (session state machine and worker). -/

/-- C1: for every outcome of the session worker — a 200 response, a non-200
response, a connection error, a timeout, or any other exception raised in
the worker body — after `process_audio` returns the session status equals
`Idle` (the final status write is the `finally` block's `IDLE`); the worker
never exits leaving the status `Processing`. -/
theorem C1_worker_always_exits_idle (o : HttpOutcome) (s0 : Status) :
    statusAfter s0 (process_audio o) = Status.idle ∧
    (process_audio o).statusWrites.getLast? = some Status.idle := by
  exact ⟨rfl, rfl⟩

/-- C2: a toggle invocation arriving while the status is `Processing`, after
the debounce window has elapsed, changes neither the session status nor the
recorder state and spawns no worker. -/
theorem C2_toggle_during_processing_noop (now : ℚ) (len : ℕ) (s : ClientState)
    (hs : s.status = Status.processing) (hd : ¬(now - s.lastToggleTime < 1/2)) :
    (toggle_recording now len s).state.status = s.status ∧
    (toggle_recording now len s).state.isRecording = s.isRecording ∧
    (toggle_recording now len s).workerSpawned = false := by
  rw [toggle_processing_eq now len s hd hs]
  exact ⟨rfl, rfl, rfl⟩

/-- Witness for C2 at a concrete state. -/
theorem C2_toggle_during_processing_noop_witness :
    (toggle_recording 1 500 ⟨0, Status.processing, false⟩).state.status = Status.processing ∧
    (toggle_recording 1 500 ⟨0, Status.processing, false⟩).state.isRecording = false ∧
    (toggle_recording 1 500 ⟨0, Status.processing, false⟩).workerSpawned = false := by
  have h := C2_toggle_during_processing_noop 1 500 ⟨0, Status.processing, false⟩ rfl (by norm_num)
  exact ⟨h.1, h.2.1, h.2.2⟩

/-- C3: a toggle that stops a recording (status `Recording`, recorder
active, debounce elapsed) with a payload under 1000 bytes goes directly to
`Idle`, emits the "too short" notification and spawns no worker; with a
payload of 1000 bytes or more it spawns a worker, and the worker's first
status write is `Processing` (entering `Processing`) for every outcome. -/
theorem C3_stop_short_vs_long (now : ℚ) (len : ℕ) (s : ClientState)
    (hst : s.status = Status.recording) (hrec : s.isRecording = true)
    (hd : ¬(now - s.lastToggleTime < 1/2)) :
    (len < 1000 →
      (toggle_recording now len s).state.status = Status.idle ∧
      (toggle_recording now len s).workerSpawned = false ∧
      "Recording too short, ignored." ∈ (toggle_recording now len s).notifications) ∧
    (1000 ≤ len →
      (toggle_recording now len s).workerSpawned = true ∧
      ∀ o : HttpOutcome,
        (process_audio o).statusWrites.head? = some Status.processing) := by
  constructor
  · intro hlen
    rw [toggle_stop_short_eq now len s hd (by rw [hst]; simp) hrec hlen]
    exact ⟨rfl, rfl, by simp⟩
  · intro hlen
    rw [toggle_stop_long_eq now len s hd (by rw [hst]; simp) hrec (by omega)]
    exact ⟨rfl, fun o => rfl⟩

/-- Witness for C3 at concrete short and long payloads. -/
theorem C3_stop_short_vs_long_witness :
    ((toggle_recording 1 999 ⟨0, Status.recording, true⟩).state.status = Status.idle ∧
     (toggle_recording 1 999 ⟨0, Status.recording, true⟩).workerSpawned = false ∧
     "Recording too short, ignored." ∈
       (toggle_recording 1 999 ⟨0, Status.recording, true⟩).notifications) ∧
    ((toggle_recording 1 1000 ⟨0, Status.recording, true⟩).workerSpawned = true ∧
     (process_audio HttpOutcome.connError).statusWrites.head? = some Status.processing) := by
  have h9 := C3_stop_short_vs_long 1 999 ⟨0, Status.recording, true⟩ rfl rfl (by norm_num)
  have h1 := C3_stop_short_vs_long 1 1000 ⟨0, Status.recording, true⟩ rfl rfl (by norm_num)
  exact ⟨h9.1 (by omega), (h1.2 (by omega)).1, (h1.2 (by omega)).2 HttpOutcome.connError⟩

/-- C7: an activation is suppressed — whole state unchanged, no worker, no
notification — exactly when the elapsed time since the stored timestamp is
strictly below 500 ms; an allowed activation stores `now`; hence a second
activation within 500 ms of an allowed one is suppressed, and one at or
after the 500 ms boundary is allowed and stores its own time. -/
theorem C7_debounce_gate (now now2 : ℚ) (len len2 : ℕ) (s : ClientState) :
    (now - s.lastToggleTime < 1/2 ↔ toggle_recording now len s = ⟨s, false, []⟩) ∧
    (¬(now - s.lastToggleTime < 1/2) →
      (toggle_recording now len s).state.lastToggleTime = now ∧
      (now2 - now < 1/2 →
        toggle_recording now2 len2 (toggle_recording now len s).state =
          ⟨(toggle_recording now len s).state, false, []⟩) ∧
      (¬(now2 - now < 1/2) →
        (toggle_recording now2 len2 (toggle_recording now len s).state).state.lastToggleTime
          = now2)) := by
  constructor
  · constructor
    · intro hd
      exact toggle_suppressed now len s hd
    · intro he
      by_contra hd
      have hchanged := toggle_allowed_changes now len s hd
      rw [he] at hchanged
      exact hchanged rfl
  · intro hd
    have hlast := toggle_allowed_lastTime now len s hd
    refine ⟨hlast, ?_, ?_⟩
    · intro h2
      apply toggle_suppressed
      rw [hlast]
      exact h2
    · intro h2
      apply toggle_allowed_lastTime
      rw [hlast]
      exact h2

/-- Witness for C7: an allowed activation at `t = 1` from timestamp `0`, a
suppressed one at `t = 1.2`, and an allowed one at `t = 1.5`. -/
theorem C7_debounce_gate_witness :
    (toggle_recording 1 2000 ⟨0, Status.idle, false⟩).state.lastToggleTime = 1 ∧
    toggle_recording (6/5) 2000 (toggle_recording 1 2000 ⟨0, Status.idle, false⟩).state =
      ⟨(toggle_recording 1 2000 ⟨0, Status.idle, false⟩).state, false, []⟩ ∧
    (toggle_recording (3/2) 2000
      (toggle_recording 1 2000 ⟨0, Status.idle, false⟩).state).state.lastToggleTime = 3/2 := by
  have h := (C7_debounce_gate 1 (6/5) 2000 2000 ⟨0, Status.idle, false⟩).2 (by norm_num)
  have h' := (C7_debounce_gate 1 (3/2) 2000 2000 ⟨0, Status.idle, false⟩).2 (by norm_num)
  exact ⟨h.1, h.2.1 (by norm_num), h'.2.2 (by norm_num)⟩

/-- C10: an activation that passes the debounce check but is ignored
because the status is `Processing` still stores `now` as the debounce
timestamp while leaving status and recorder untouched, so a further
activation within 500 ms of the ignored one is suppressed. -/
theorem C10_ignored_activation_consumes_window (now now2 : ℚ) (len len2 : ℕ)
    (s : ClientState) (hs : s.status = Status.processing)
    (hd : ¬(now - s.lastToggleTime < 1/2)) :
    toggle_recording now len s = ⟨⟨now, s.status, s.isRecording⟩, false, []⟩ ∧
    (now2 - now < 1/2 →
      toggle_recording now2 len2 (toggle_recording now len s).state =
        ⟨(toggle_recording now len s).state, false, []⟩) := by
  have h1 := toggle_processing_eq now len s hd hs
  refine ⟨h1, fun h2 => ?_⟩
  apply toggle_suppressed
  rw [h1]
  exact h2

/-- Witness for C10 at a concrete state in `Processing`. -/
theorem C10_ignored_activation_consumes_window_witness :
    toggle_recording 1 2000 ⟨0, Status.processing, false⟩ =
      ⟨⟨1, Status.processing, false⟩, false, []⟩ ∧
    toggle_recording (6/5) 2000 (toggle_recording 1 2000 ⟨0, Status.processing, false⟩).state =
      ⟨(toggle_recording 1 2000 ⟨0, Status.processing, false⟩).state, false, []⟩ := by
  have h := C10_ignored_activation_consumes_window 1 (6/5) 2000 2000
    ⟨0, Status.processing, false⟩ rfl (by norm_num)
  exact ⟨h.1, h.2 (by norm_num)⟩

/-! The key-spec parser: claim C8. -/

/-- Membership in the set-insertion used by the parser and the recognizer. -/
theorem mem_insertKey {k k' : Key} {l : List Key} :
    k ∈ insertKey k' l ↔ k = k' ∨ k ∈ l := by
  by_cases h : k' ∈ l <;> simp only [insertKey, h, if_true, if_false, ite_true, ite_false]
  · exact ⟨fun hk => Or.inr hk, fun hk => hk.elim (fun e => e ▸ h) id⟩
  · simp [or_comm]

/-- One step of the parser loop agrees with the per-token resolution
cascade. -/
theorem parseLoop_step (part : String) (rest : List String) (keys : List Key)
    (warns : List String) :
    parseLoop (part :: rest) keys warns =
      match resolveToken part with
      | some k => parseLoop rest (insertKey k keys) warns
      | none => parseLoop rest keys (warns ++ [part]) := by
  cases h : lookupKeyMap part with
  | some k => simp [parseLoop, resolveToken, h]
  | none =>
    rcases hd : part.data with _ | ⟨c, _ | ⟨c2, cs⟩⟩
    · by_cases ht : part ∈ keyTable <;> simp [parseLoop, resolveToken, h, hd, ht]
    · simp [parseLoop, resolveToken, h, hd]
    · by_cases ht : part ∈ keyTable <;> simp [parseLoop, resolveToken, h, hd, ht]

/-- The key set built by the parser loop is its initial accumulator plus the
keys of the resolvable tokens. -/
theorem parseLoop_mem (toks : List String) : ∀ (keys : List Key) (warns : List String)
    (k : Key), k ∈ (parseLoop toks keys warns).1 ↔
      k ∈ keys ∨ ∃ t, t ∈ toks ∧ resolveToken t = some k := by
  induction toks with
  | nil => intro keys warns k; simp [parseLoop]
  | cons part rest ih =>
    intro keys warns k
    rw [parseLoop_step]
    cases h : resolveToken part with
    | some k0 =>
      rw [ih]
      simp only [mem_insertKey, List.mem_cons, h]
      constructor
      · rintro ((rfl | hk) | ⟨t, ht, hres⟩)
        · exact Or.inr ⟨part, Or.inl rfl, h⟩
        · exact Or.inl hk
        · exact Or.inr ⟨t, Or.inr ht, hres⟩
      · rintro (hk | ⟨t, (rfl | ht), hres⟩)
        · exact Or.inl (Or.inr hk)
        · rw [h] at hres
          exact Or.inl (Or.inl (Option.some.inj hres).symm)
        · exact Or.inr ⟨t, ht, hres⟩
    | none =>
      rw [ih]
      constructor
      · rintro (hk | ⟨t, ht, hres⟩)
        · exact Or.inl hk
        · exact Or.inr ⟨t, List.mem_cons_of_mem _ ht, hres⟩
      · rintro (hk | ⟨t, ht, hres⟩)
        · exact Or.inl hk
        · rcases List.mem_cons.mp ht with rfl | ht'
          · rw [h] at hres
            exact absurd hres (Option.noConfusion)
          · exact Or.inr ⟨t, ht', hres⟩

/-- The warning list built by the parser loop is its initial accumulator
plus exactly the unresolvable tokens, in order. -/
theorem parseLoop_warns (toks : List String) : ∀ (keys : List Key) (warns : List String),
    (parseLoop toks keys warns).2 =
      warns ++ toks.filter (fun t => (resolveToken t).isNone) := by
  induction toks with
  | nil => intro keys warns; simp [parseLoop]
  | cons part rest ih =>
    intro keys warns
    rw [parseLoop_step]
    cases h : resolveToken part with
    | some k0 => rw [ih]; simp [List.filter_cons, h]
    | none => rw [ih]; simp [List.filter_cons, h]

/-- C8: parsing a hotkey string tokenizes it (lower-casing, `+` as
whitespace, whitespace split) and resolves each token through the alias
map, the single-character rule or the named-key table; the resulting key
set is exactly the set of keys of the resolvable tokens, and every
unresolvable token is merely recorded as a warning — never fatal. -/
theorem C8_parse_skips_unresolvable (s : String) :
    (∀ k, k ∈ (parse_hotkey s).1 ↔ ∃ t, t ∈ tokenize s ∧ resolveToken t = some k) ∧
    (parse_hotkey s).2 = (tokenize s).filter (fun t => (resolveToken t).isNone) := by
  constructor
  · intro k
    rw [parse_hotkey, parseLoop_mem]
    simp
  · rw [parse_hotkey, parseLoop_warns]
    simp

/-- Witness for C8: a spec with an unresolvable middle token still yields
the keys of its resolvable tokens, and records the bad token. -/
theorem C8_parse_skips_unresolvable_witness :
    Key.named "ctrl_l" ∈ (parse_hotkey "<ctrl>+bogus+space").1 ∧
    (parse_hotkey "<ctrl>+bogus+space").2 = ["bogus"] := by
  constructor
  · exact ((C8_parse_skips_unresolvable "<ctrl>+bogus+space").1 (Key.named "ctrl_l")).mpr
      ⟨"<ctrl>", by decide, by decide⟩
  · rw [(C8_parse_skips_unresolvable "<ctrl>+bogus+space").2]
    decide

/-! Structural lemmas about the recognizer run. -/

/-- The listener callbacks never change the tap registrations. -/
theorem runEvents_tapKeys (es : List KEvent) : ∀ hm : HotkeyManager,
    (runEvents hm es).1.tapKeys = hm.tapKeys := by
  induction es with
  | nil => intro hm; rfl
  | cons e rest ih =>
    intro hm
    cases e <;>
      simp [runEvents, hmStep, HotkeyManager.on_press, HotkeyManager.on_release, ih]

/-- The listener callbacks never change the combo registrations. -/
theorem runEvents_combos (es : List KEvent) : ∀ hm : HotkeyManager,
    (runEvents hm es).1.combos = hm.combos := by
  induction es with
  | nil => intro hm; rfl
  | cons e rest ih =>
    intro hm
    cases e <;>
      simp [runEvents, hmStep, HotkeyManager.on_press, HotkeyManager.on_release, ih]

/-- The pressed-key set evolves by `pressStep`, independently of the
registrations and the interleave flag. -/
theorem runEvents_pressed (es : List KEvent) : ∀ hm : HotkeyManager,
    (runEvents hm es).1.pressedKeys = es.foldl pressStep hm.pressedKeys := by
  induction es with
  | nil => intro hm; rfl
  | cons e rest ih =>
    intro hm
    cases e <;>
      simp [runEvents, hmStep, HotkeyManager.on_press, HotkeyManager.on_release, ih,
        pressStep]

/-- Splitting a run at an arbitrary point. -/
theorem runEvents_append (es es' : List KEvent) : ∀ hm : HotkeyManager,
    runEvents hm (es ++ es') =
      ((runEvents (runEvents hm es).1 es').1,
        (runEvents hm es).2 ++ (runEvents (runEvents hm es).1 es').2) := by
  induction es with
  | nil => intro hm; simp [runEvents]
  | cons e rest ih =>
    intro hm
    simp [runEvents, ih]

/-! Claim C9: a spec with no resolvable token registers the empty combo,
which then fires on every key press. -/

/-- C9: registering a specification string in which no token resolves
installs a combo gesture keyed by the empty set, and that gesture's
callback fires on every subsequent key press of any key, after any
further event history. -/
theorem C9_empty_spec_fires_on_every_press (spec : String) (hm : HotkeyManager)
    (hp : (parse_hotkey spec).1 = []) (es : List KEvent) (k : Key) :
    (hm.register spec).combos = hm.combos ++ [[]] ∧
    Fired.combo [] ∈ ((runEvents (hm.register spec) es).1.on_press k).2 := by
  have hreg : (hm.register spec).combos = hm.combos ++ [[]] := by
    unfold HotkeyManager.register
    rw [hp]
  refine ⟨hreg, ?_⟩
  have hc : [] ∈ (runEvents (hm.register spec) es).1.combos := by
    rw [runEvents_combos, hreg]
    simp
  simp only [HotkeyManager.on_press, List.mem_map]
  exact ⟨[], List.mem_filter.mpr ⟨hc, rfl⟩, rfl⟩

/-- Witness for C9 with the unresolvable spec string `"bogustoken"`. -/
theorem C9_empty_spec_fires_on_every_press_witness :
    (parse_hotkey "bogustoken").1 = [] ∧
    ((mkHM [] []).register "bogustoken").combos = [[]] ∧
    Fired.combo [] ∈
      ((runEvents ((mkHM [] []).register "bogustoken")
        [KEvent.press (Key.char 'q')]).1.on_press (Key.char 'z')).2 := by
  have h := C9_empty_spec_fires_on_every_press "bogustoken" (mkHM [] []) (by decide)
    [KEvent.press (Key.char 'q')] (Key.char 'z')
  exact ⟨by decide, h.1, h.2⟩

/-! Claim C5: combo firing discipline. -/

/-- Counting combo-`c` invocations commutes with wrapping key sets in
`Fired.combo`. -/
theorem countFired_map_combo (c : List Key) (l : List (List Key)) :
    countFired c (l.map Fired.combo) = l.countP (fun c' => decide (c' = c)) := by
  induction l with
  | nil => rfl
  | cons a t ih =>
    simp [countFired, List.countP_cons, Fired.combo.injEq] at *
    rw [ih]

/-- In a duplicate-free registry containing `c`, the filtered registry
contains `c` once if the filter keeps it and zero times otherwise. -/
theorem countP_filter_nodup (c : List Key) (q : List Key → Bool) (l : List (List Key))
    (hnd : l.Nodup) (hc : c ∈ l) :
    (l.filter q).countP (fun c' => decide (c' = c)) = if q c then 1 else 0 := by
  induction l with
  | nil => cases hc
  | cons a t ih =>
    rcases List.mem_cons.mp hc with rfl | hct
    · have hnt : c ∉ t := (List.nodup_cons.mp hnd).1
      have h0 : (t.filter q).countP (fun c' => decide (c' = c)) = 0 := by
        apply List.countP_eq_zero.mpr
        intro x hx hdx
        have hxc : x = c := of_decide_eq_true hdx
        exact hnt (hxc ▸ List.mem_of_mem_filter hx)
      by_cases hq : q c <;> simp [List.filter_cons, hq, List.countP_cons, h0]
    · have hnd' := (List.nodup_cons.mp hnd).2
      have hne : ¬ (a = c) := fun e => (List.nodup_cons.mp hnd).1 (e ▸ hct)
      by_cases hq : q a <;>
        simp [List.filter_cons, hq, List.countP_cons, ih hnd' hct, hne]

/-- A press event invokes the combo callback for `c` exactly once when `c`
is a subset of the normalized pressed set after the press, and not at all
otherwise. -/
theorem countFired_on_press (hm : HotkeyManager) (k : Key) (c : List Key)
    (hnd : hm.combos.Nodup) (hc : c ∈ hm.combos) :
    countFired c (hm.on_press k).2 =
      if subsetB c (normSet (insertKey k hm.pressedKeys)) then 1 else 0 := by
  simp only [HotkeyManager.on_press]
  rw [countFired_map_combo, countP_filter_nodup c _ _ hnd hc]

/-- A release event never invokes a combo callback. -/
theorem countFired_on_release (hm : HotkeyManager) (k : Key) (c : List Key) :
    countFired c (hm.on_release k).2 = 0 := by
  simp only [HotkeyManager.on_release, countFired]
  split <;> simp

/-- The run-level count of combo-`c` invocations equals the number of press
events after which `c` is contained in the normalized held set. -/
theorem run_countFired (c : List Key) (es : List KEvent) : ∀ hm : HotkeyManager,
    hm.combos.Nodup → c ∈ hm.combos →
    countFired c (runEvents hm es).2 = countPressSat c hm.pressedKeys es := by
  induction es with
  | nil => intro hm _ _; rfl
  | cons e rest ih =>
    intro hm hnd hc
    cases e with
    | press k =>
      have hstep : countFired c ((hm.on_press k).2 ++ (runEvents (hm.on_press k).1 rest).2)
          = countFired c (hm.on_press k).2 + countFired c (runEvents (hm.on_press k).1 rest).2 := by
        simp [countFired, List.countP_append]
      simp only [runEvents, hmStep]
      rw [hstep, countFired_on_press hm k c hnd hc, ih (hm.on_press k).1 hnd hc]
      rfl
    | release k =>
      have hstep : countFired c ((hm.on_release k).2 ++ (runEvents (hm.on_release k).1 rest).2)
          = countFired c (hm.on_release k).2 + countFired c (runEvents (hm.on_release k).1 rest).2 := by
        simp [countFired, List.countP_append]
      simp only [runEvents, hmStep]
      rw [hstep, countFired_on_release hm k c, ih (hm.on_release k).1 hnd hc,
        Nat.zero_add]
      rfl

/-- C5 (counterexample to the claim as stated): with the combo
`ctrl+shift+space` registered, the press sequence `ctrl_l, shift_l, space,
'a'` contains exactly one press that completes the combo's key set, yet the
callback is invoked twice — the press of `'a'` arriving after the subset is
already satisfied re-invokes it. -/
theorem C5_counterexample_refires_when_held :
    claimCompletingCount [Key.named "ctrl_l", Key.named "shift_l", Key.named "space"] []
      [KEvent.press (Key.named "ctrl_l"), KEvent.press (Key.named "shift_l"),
       KEvent.press (Key.named "space"), KEvent.press (Key.char 'a')] = 1 ∧
    countFired [Key.named "ctrl_l", Key.named "shift_l", Key.named "space"]
      (runEvents
        (mkHM [] [[Key.named "ctrl_l", Key.named "shift_l", Key.named "space"]])
        [KEvent.press (Key.named "ctrl_l"), KEvent.press (Key.named "shift_l"),
         KEvent.press (Key.named "space"), KEvent.press (Key.char 'a')]).2 = 2 := by
  decide

/-- C5 (amended): for a duplicate-free combo registry, the callback of a
registered combo `c` is invoked exactly once per press event after which
`c` is a subset of the normalized held-key set — so it fires on the press
completing the subset, never while only a proper subset is held, but it
fires again on every further press while the subset stays satisfied. -/
theorem C5_amended_fires_once_per_satisfied_press (taps : List Key)
    (combos : List (List Key)) (c : List Key) (hnd : combos.Nodup) (hc : c ∈ combos)
    (es : List KEvent) :
    countFired c (runEvents (mkHM taps combos) es).2 = countPressSat c [] es :=
  run_countFired c es (mkHM taps combos) hnd hc

/-- Witness for the amended C5 on a concrete press sequence. -/
theorem C5_amended_fires_once_per_satisfied_press_witness :
    ([[Key.named "ctrl_l", Key.named "shift_l", Key.named "space"]] :
        List (List Key)).Nodup ∧
    [Key.named "ctrl_l", Key.named "shift_l", Key.named "space"] ∈
      [[Key.named "ctrl_l", Key.named "shift_l", Key.named "space"]] ∧
    countFired [Key.named "ctrl_l", Key.named "shift_l", Key.named "space"]
      (runEvents
        (mkHM [] [[Key.named "ctrl_l", Key.named "shift_l", Key.named "space"]])
        [KEvent.press (Key.named "shift_l"), KEvent.press (Key.named "ctrl_l"),
         KEvent.press (Key.named "space")]).2 =
      countPressSat [Key.named "ctrl_l", Key.named "shift_l", Key.named "space"] []
        [KEvent.press (Key.named "shift_l"), KEvent.press (Key.named "ctrl_l"),
         KEvent.press (Key.named "space")] :=
  ⟨by decide, by decide,
    C5_amended_fires_once_per_satisfied_press []
      [[Key.named "ctrl_l", Key.named "shift_l", Key.named "space"]]
      [Key.named "ctrl_l", Key.named "shift_l", Key.named "space"]
      (by decide) (by decide) _⟩

/-! Claim C4: tap firing discipline. -/

/-- `pressedAfter` of a trace extended by one event. -/
theorem pressedAfter_snoc (es : List KEvent) (e : KEvent) :
    pressedAfter (es ++ [e]) = pressStep (pressedAfter es) e := by
  simp [pressedAfter, List.foldl_append]

/-- Set insertion never empties a list. -/
theorem insertKey_ne_nil (k : Key) (l : List Key) : insertKey k l ≠ [] := by
  unfold insertKey
  split
  · exact List.ne_nil_of_mem (by assumption)
  · simp

/-- The held-key set is nonempty right after any press. -/
theorem pressedAfter_snoc_press_ne_nil (es : List KEvent) (k : Key) :
    pressedAfter (es ++ [KEvent.press k]) ≠ [] := by
  rw [pressedAfter_snoc]
  exact insertKey_ne_nil k (pressedAfter es)

/-- Splitting an equality between a snoc and an append-cons decomposition:
the distinguished middle element is either the final element or lies in
the original list. -/
theorem snoc_eq_append_cons {α : Type} (es : List α) (x : α) (e₁ : List α) (y : α)
    (e₂ : List α) (h : es ++ [x] = e₁ ++ y :: e₂) :
    (e₂ = [] ∧ e₁ = es ∧ y = x) ∨ ∃ e₃, e₂ = e₃ ++ [x] ∧ es = e₁ ++ y :: e₃ := by
  rcases List.eq_nil_or_concat' e₂ with rfl | ⟨e₃, z, rfl⟩
  · left
    obtain ⟨h1, h2⟩ := List.append_inj' h (by simp)
    injection h2 with hxy
    exact ⟨rfl, h1.symm, hxy.symm⟩
  · right
    have h' : es ++ [x] = (e₁ ++ y :: e₃) ++ [z] := by
      rw [h]
      simp
    obtain ⟨h1, h2⟩ := List.append_inj' h' (by simp)
    injection h2 with hxz
    exact ⟨e₃, by rw [hxz], h1⟩

/-- Empty traces are never inhibited. -/
theorem inhibited_nil (taps : List Key) : ¬ inhibited taps [] := by
  rintro ⟨e₁, k', e₂, heq, -, -⟩
  exact absurd heq.symm (by simp)

/-- Extending a trace by a press: the trace is inhibited afterwards exactly
when it already was, or the new key has no tap registration. -/
theorem inhibited_snoc_press (taps : List Key) (es : List KEvent) (k' : Key) :
    inhibited taps (es ++ [KEvent.press k']) ↔ inhibited taps es ∨ k' ∉ taps := by
  constructor
  · rintro ⟨e₁, k₀, e₂, heq, hk₀, hcond⟩
    rcases snoc_eq_append_cons es (KEvent.press k') e₁ (KEvent.press k₀) e₂ heq with
      ⟨rfl, rfl, hyx⟩ | ⟨e₃, rfl, rfl⟩
    · right
      injection hyx with h
      exact h ▸ hk₀
    · left
      refine ⟨e₁, k₀, e₃, rfl, hk₀, fun p t hpt => ?_⟩
      exact hcond p (t ++ [KEvent.press k']) (by rw [hpt, List.append_assoc])
  · rintro (⟨e₁, k₀, e₂, rfl, hk₀, hcond⟩ | hk')
    · refine ⟨e₁, k₀, e₂ ++ [KEvent.press k'], by simp, hk₀, fun p t hpt => ?_⟩
      rcases List.eq_nil_or_concat' t with rfl | ⟨t', z, rfl⟩
      · rw [List.append_nil] at hpt
        subst hpt
        have hassoc : e₁ ++ KEvent.press k₀ :: (e₂ ++ [KEvent.press k']) =
            (e₁ ++ KEvent.press k₀ :: e₂) ++ [KEvent.press k'] := by simp
        rw [hassoc]
        exact pressedAfter_snoc_press_ne_nil _ _
      · have h' : e₂ ++ [KEvent.press k'] = (p ++ t') ++ [z] := by
          rw [hpt]
          simp
        obtain ⟨h1, -⟩ := List.append_inj' h' (by simp)
        exact hcond p t' h1
    · refine ⟨es, k', [], by simp, hk', fun p t hpt => ?_⟩
      have hp : p = [] := List.append_eq_nil.mp hpt.symm |>.1
      subst hp
      simpa using pressedAfter_snoc_press_ne_nil es k'

/-- Extending a trace by a release: the trace is inhibited afterwards
exactly when it already was and the held-key set does not become empty. -/
theorem inhibited_snoc_release (taps : List Key) (es : List KEvent) (k : Key) :
    inhibited taps (es ++ [KEvent.release k]) ↔
      inhibited taps es ∧ pressedAfter (es ++ [KEvent.release k]) ≠ [] := by
  constructor
  · rintro ⟨e₁, k₀, e₂, heq, hk₀, hcond⟩
    rcases snoc_eq_append_cons es (KEvent.release k) e₁ (KEvent.press k₀) e₂ heq with
      ⟨rfl, rfl, hyx⟩ | ⟨e₃, rfl, rfl⟩
    · exact absurd hyx (by simp)
    · constructor
      · refine ⟨e₁, k₀, e₃, rfl, hk₀, fun p t hpt => ?_⟩
        exact hcond p (t ++ [KEvent.release k]) (by rw [hpt, List.append_assoc])
      · have hfull := hcond (e₃ ++ [KEvent.release k]) [] (by simp)
        have hassoc : e₁ ++ KEvent.press k₀ :: (e₃ ++ [KEvent.release k]) =
            (e₁ ++ KEvent.press k₀ :: e₃) ++ [KEvent.release k] := by simp
        rw [hassoc] at hfull
        exact hfull
  · rintro ⟨⟨e₁, k₀, e₂, rfl, hk₀, hcond⟩, hne⟩
    refine ⟨e₁, k₀, e₂ ++ [KEvent.release k], by simp, hk₀, fun p t hpt => ?_⟩
    rcases List.eq_nil_or_concat' t with rfl | ⟨t', z, rfl⟩
    · rw [List.append_nil] at hpt
      subst hpt
      have hassoc : e₁ ++ KEvent.press k₀ :: (e₂ ++ [KEvent.release k]) =
          (e₁ ++ KEvent.press k₀ :: e₂) ++ [KEvent.release k] := by simp
      rw [hassoc]
      exact hne
    · have h' : e₂ ++ [KEvent.release k] = (p ++ t') ++ [z] := by
        rw [hpt]
        simp
      obtain ⟨h1, -⟩ := List.append_inj' h' (by simp)
      exact hcond p t' h1

/-- The `_other_key_pressed` flag after a run from a fresh recognizer is set
exactly on inhibited traces. -/
theorem flag_iff_inhibited (taps : List Key) (combos : List (List Key)) :
    ∀ es : List KEvent,
      ((runEvents (mkHM taps combos) es).1.otherKeyPressed = true ↔
        inhibited taps es) := by
  intro es
  induction es using List.reverseRecOn with
  | nil =>
    simp only [runEvents]
    exact ⟨fun h => absurd h (by simp [mkHM]), fun h => absurd h (inhibited_nil taps)⟩
  | append_singleton es e ih =>
    have hsplit := runEvents_append es [e] (mkHM taps combos)
    have hstate : (runEvents (mkHM taps combos) (es ++ [e])).1 =
        (hmStep (runEvents (mkHM taps combos) es).1 e).1 := by
      rw [hsplit]
      rfl
    have htap : (runEvents (mkHM taps combos) es).1.tapKeys = taps :=
      runEvents_tapKeys es (mkHM taps combos)
    have hpress : (runEvents (mkHM taps combos) es).1.pressedKeys = pressedAfter es :=
      runEvents_pressed es (mkHM taps combos)
    rw [hstate]
    cases e with
    | press k' =>
      rw [inhibited_snoc_press]
      simp only [hmStep, HotkeyManager.on_press, htap]
      by_cases hk : k' ∈ taps
      · rw [if_pos hk, ih]
        simp [hk]
      · rw [if_neg hk]
        simp [hk]
    | release k =>
      rw [inhibited_snoc_release]
      simp only [hmStep, HotkeyManager.on_release]
      have herase : (runEvents (mkHM taps combos) es).1.pressedKeys.erase k =
          pressedAfter (es ++ [KEvent.release k]) := by
        rw [hpress, pressedAfter_snoc]
        rfl
      by_cases hp : pressedAfter (es ++ [KEvent.release k]) = []
      · rw [herase, if_pos hp]
        simp [hp]
      · rw [herase, if_neg hp, ih]
        simp [hp]

/-- Membership of the tap event in the release-handler output. -/
theorem tap_mem_on_release (hm : HotkeyManager) (k : Key) :
    Fired.tap k ∈ (hm.on_release k).2 ↔
      k ∈ hm.tapKeys ∧ hm.otherKeyPressed = false := by
  simp only [HotkeyManager.on_release]
  split
  · simp_all
  · simp_all

/-- C4 (counterexample to the claim as stated): with `cmd_r` registered as a
tap, in the trace `press 'c', press cmd_r, release cmd_r` no key other
than `cmd_r` is pressed during the interval in which `cmd_r` is held — per
the claim the tap must fire on the release — yet the code does not invoke
the tap callback, because the key `'c'` held from before the tap key's
press has set `_other_key_pressed`. -/
theorem C4_counterexample_held_from_before_inhibits :
    claimOtherKeyDuringHold (Key.named "cmd_r")
      [KEvent.press (Key.char 'c'), KEvent.press (Key.named "cmd_r")] = false ∧
    ¬ firesTapOnRelease [Key.named "cmd_r"] []
      [KEvent.press (Key.char 'c'), KEvent.press (Key.named "cmd_r")]
      (Key.named "cmd_r") := by
  decide

/-- C4 (amended): the tap callback for `k` is invoked on a release of `k`
exactly when `k` has a tap registration and no key lacking a tap
registration was pressed since the held-key set last became empty (rather
than "since `k`'s own press"): a key pressed and fully released before the
tap key's press does not inhibit the tap, but a non-tap key still held
from before the tap key's press does, and other registered tap keys never
inhibit. -/
theorem C4_amended_tap_fires_iff_uninhibited (taps : List Key)
    (combos : List (List Key)) (es : List KEvent) (k : Key) :
    firesTapOnRelease taps combos es k ↔ k ∈ taps ∧ ¬ inhibited taps es := by
  have hchar := flag_iff_inhibited taps combos es
  unfold firesTapOnRelease
  rw [tap_mem_on_release, runEvents_tapKeys]
  show k ∈ taps ∧ (runEvents (mkHM taps combos) es).1.otherKeyPressed = false ↔ _
  constructor
  · rintro ⟨hk, hflag⟩
    refine ⟨hk, fun hinh => ?_⟩
    rw [hchar.mpr hinh] at hflag
    exact Bool.noConfusion hflag
  · rintro ⟨hk, hninh⟩
    refine ⟨hk, ?_⟩
    cases hb : (runEvents (mkHM taps combos) es).1.otherKeyPressed
    · rfl
    · exact absurd (hchar.mp hb) hninh

/-! Claim C6: left/right normalization and where it is (not) applied. -/

/-- The subset test only depends on the membership relation of the ambient
set. -/
theorem subsetB_congr (c : List Key) {l₁ l₂ : List Key}
    (h : ∀ x, x ∈ l₁ ↔ x ∈ l₂) : subsetB c l₁ = subsetB c l₂ := by
  unfold subsetB
  congr 1
  funext m
  exact decide_eq_decide.mpr (h m)

/-- Inserting normalization-equivalent keys yields normalized sets with the
same members. -/
theorem mem_normSet_insertKey (k k' : Key) (p : List Key)
    (h : normalize_key k = normalize_key k') (x : Key) :
    x ∈ normSet (insertKey k p) ↔ x ∈ normSet (insertKey k' p) := by
  unfold normSet insertKey
  by_cases h1 : k ∈ p <;> by_cases h2 : k' ∈ p
  · rw [if_pos h1, if_pos h2]
  · rw [if_pos h1, if_neg h2, List.map_append]
    constructor
    · intro hx
      exact List.mem_append.mpr (Or.inl hx)
    · intro hx
      rcases List.mem_append.mp hx with hx | hx
      · exact hx
      · have hx' : x = normalize_key k' := by simpa using hx
        rw [hx', ← h]
        exact List.mem_map_of_mem _ h1
  · rw [if_neg h1, if_pos h2, List.map_append]
    constructor
    · intro hx
      rcases List.mem_append.mp hx with hx | hx
      · exact hx
      · have hx' : x = normalize_key k := by simpa using hx
        rw [hx', h]
        exact List.mem_map_of_mem _ h2
    · intro hx
      exact List.mem_append.mpr (Or.inl hx)
  · rw [if_neg h1, if_neg h2, List.map_append, List.map_append]
    simp [h]

/-- The combo invocations triggered by a press depend on the pressed key
only through its normalized identity. -/
theorem on_press_fired_normalize_invariant (hm : HotkeyManager) (k k' : Key)
    (h : normalize_key k = normalize_key k') :
    (hm.on_press k).2 = (hm.on_press k').2 := by
  simp only [HotkeyManager.on_press]
  have hq : (fun c => subsetB c (normSet (insertKey k hm.pressedKeys))) =
      (fun c => subsetB c (normSet (insertKey k' hm.pressedKeys))) := by
    funext c
    exact subsetB_congr c (mem_normSet_insertKey k k' hm.pressedKeys h)
  rw [hq]

/-- Release matching is raw: a key without a tap registration — normalized
or not — fires nothing on release. -/
theorem on_release_not_registered (hm : HotkeyManager) (k : Key)
    (hk : k ∉ hm.tapKeys) : (hm.on_release k).2 = [] := by
  simp only [HotkeyManager.on_release]
  rw [if_neg (fun hc => hk hc.1)]

/-- C6 (counterexample to the claim as stated): with `ctrl_l` registered as
a tap gesture, tapping the left key alone fires the callback, `ctrl_r`
normalizes to `ctrl_l`, and yet tapping the right key alone fires
nothing — tap matching on release is performed on the raw key, so the
claimed left/right substitution-invariance fails for taps. -/
theorem C6_counterexample_tap_not_normalized :
    firesTapOnRelease [Key.named "ctrl_l"] [] [KEvent.press (Key.named "ctrl_l")]
      (Key.named "ctrl_l") ∧
    normalize_key (Key.named "ctrl_r") = Key.named "ctrl_l" ∧
    ¬ firesTapOnRelease [Key.named "ctrl_l"] [] [KEvent.press (Key.named "ctrl_r")]
      (Key.named "ctrl_r") := by
  decide

/-- C6 (amended): a named key ending in the right-variant suffix is
rewritten to its left-variant counterpart when that name exists in the key
table and passed through unchanged otherwise, all other keys pass through
unchanged; combo matching sees only normalized identities, so any two
normalization-equivalent keys trigger identical combo invocations on
press; but tap matching on release uses the raw key, so a key without its
own tap registration never fires a tap, and the left/right
substitution-invariance does not extend to taps. -/
theorem C6_amended_normalization_scope :
    (∀ n : String, endsWith_r n.data = true →
      (((replace_r_l n.data).asString ∈ keyTable →
          normalize_key (Key.named n) = Key.named (replace_r_l n.data).asString) ∧
        ((replace_r_l n.data).asString ∉ keyTable →
          normalize_key (Key.named n) = Key.named n))) ∧
    (∀ n : String, endsWith_r n.data = false →
      normalize_key (Key.named n) = Key.named n) ∧
    (∀ c : Char, normalize_key (Key.char c) = Key.char c) ∧
    (∀ (hm : HotkeyManager) (k k' : Key), normalize_key k = normalize_key k' →
      (hm.on_press k).2 = (hm.on_press k').2) ∧
    (∀ (hm : HotkeyManager) (k : Key), k ∉ hm.tapKeys → (hm.on_release k).2 = []) := by
  refine ⟨?_, ?_, ?_, ?_, ?_⟩
  · intro n hend
    constructor
    · intro ht
      simp [normalize_key, hend, ht]
    · intro ht
      simp [normalize_key, hend, ht]
  · intro n hend
    simp [normalize_key, hend]
  · intro c
    rfl
  · exact on_press_fired_normalize_invariant
  · exact on_release_not_registered

/-- Witness for the amended C6 at concrete keys: `shift_r` normalizes to
`shift_l`, a press of `ctrl_r` fires the same combos as a press of
`ctrl_l`, and releasing `cmd_r` with only `cmd` registered as a tap fires
nothing. -/
theorem C6_amended_normalization_scope_witness :
    normalize_key (Key.named "shift_r") = Key.named "shift_l" ∧
    ((mkHM [] [[Key.named "ctrl_l"]]).on_press (Key.named "ctrl_r")).2 =
      ((mkHM [] [[Key.named "ctrl_l"]]).on_press (Key.named "ctrl_l")).2 ∧
    ((mkHM [Key.named "cmd"] []).on_release (Key.named "cmd_r")).2 = [] := by
  refine ⟨?_, ?_, ?_⟩
  · have h := (C6_amended_normalization_scope.1 "shift_r" (by decide)).1 (by decide)
    rw [h]
    decide
  · exact C6_amended_normalization_scope.2.2.2.1 (mkHM [] [[Key.named "ctrl_l"]])
      (Key.named "ctrl_r") (Key.named "ctrl_l") (by decide)
  · exact C6_amended_normalization_scope.2.2.2.2 (mkHM [Key.named "cmd"] [])
      (Key.named "cmd_r") (by decide)

end Whisprly
